import Mathlib

/-! # Moira: trigger handlers and the remote fetch client

A shallow embedding of

* `api/handler/triggers.go`  (`getTriggerFromRequest`, `getMetricTTLByTrigger`,
  `createTrigger`, `triggerCheck`, `getRequestTags`, `getSearchRequestString`),
* `metric_source/remote/request.go`  (`prepareRequest`, `makeRequest`),

together with the pieces of the Go standard library these functions run
through (`net/url`, `strings.ToLower`, `strconv.FormatInt`, `fmt` verbs).

Conventions.

* A Go `string` (and a `[]byte`) is a sequence of bytes: `GoString` is a list of
  byte values.  `lit "abc"` is the ASCII literal.
* A Go `error` value is its dynamic type, as far as the type switches of the
  handlers tell types apart, and its `Error()` text.
* A handler writes to a response writer and calls into other packages; the
  embedding returns the sequence of these effects, in program order.  The
  functions of other packages that are not part of the three embedded files are
  fields of an environment `Env`, so every theorem holds for all behaviours of
  these collaborators.
-/

namespace Moira

/-! ## Go strings -/

/-- A Go string: its bytes. -/
abbrev GoString := List Nat

/-- An ASCII string literal as a Go string. -/
def lit (s : String) : GoString := s.toList.map Char.toNat

/-! ## `strconv`, `strings` -/

/-- Decimal digits of `n`, most significant first, in front of `acc`; `fuel`
bounds the number of digits. -/
def formatDigits : Nat → Nat → GoString → GoString
  | 0, _, acc => acc
  | fuel + 1, n, acc =>
    if n / 10 = 0 then (48 + n % 10) :: acc
    else formatDigits fuel (n / 10) ((48 + n % 10) :: acc)

/-- Decimal text of a natural number (`strconv.FormatUint(n, 10)`). -/
def FormatUint (n : Nat) : GoString := formatDigits (n + 1) n []

/-- The function `strconv.FormatInt(i, 10)`; also the text `fmt` prints for an
integer under `%d` and `%v`. -/
def FormatInt (i : Int) : GoString :=
  if i < 0 then 45 :: FormatUint i.natAbs else FormatUint i.toNat

/-- The function `strings.Cut(s, sep)` for a one-byte separator: the text before
the first `sep`, the text after it, and whether `sep` occurs. -/
def Cut (s : GoString) (sep : Nat) : GoString × GoString × Bool :=
  (s.takeWhile (fun c => c != sep), (s.dropWhile (fun c => c != sep)).drop 1, s.contains sep)

/-- Split at the last occurrence of the byte `sep` (`strings.LastIndex` followed
by the two slices `s[:i]`, `s[i+1:]`); `none` when `sep` does not occur. -/
def cutLast (s : GoString) (sep : Nat) : Option (GoString × GoString) :=
  if s.contains sep then
    some (((s.reverse.dropWhile (fun c => c != sep)).drop 1).reverse,
          (s.reverse.takeWhile (fun c => c != sep)).reverse)
  else none

/-- The function `strings.Index(s, sub)`: `none` stands for `-1`. -/
def Index : GoString → GoString → Option Nat
  | [], sub => if sub = [] then some 0 else none
  | c :: cs, sub =>
    if sub.isPrefixOf (c :: cs) then some 0 else (Index cs sub).map (fun i => i + 1)

/-- The pieces of `s` between the occurrences of the byte `sep`. -/
def splitByte (sep : Nat) : GoString → List GoString
  | [] => [[]]
  | c :: cs =>
    if c = sep then [] :: splitByte sep cs
    else
      match splitByte sep cs with
      | [] => [[c]]
      | seg :: segs => (c :: seg) :: segs

/-- ASCII letters `A`..`Z` are moved to `a`..`z`, other bytes are kept. -/
def lowerByte (c : Nat) : Nat := if 65 ≤ c ∧ c ≤ 90 then c + 32 else c

/-- The function `strings.ToLower`.  A string of ASCII bytes only is lowered
byte by byte (and returned as it is when it has no upper-case letter); a string
with a byte at or above `utf8.RuneSelf = 0x80` goes through
`strings.Map(unicode.ToLower, s)`, which is the parameter `unicodeLower`: the
Unicode case tables are outside this embedding. -/
def ToLower (unicodeLower : GoString → GoString) (s : GoString) : GoString :=
  if s.all (fun c => c < 128) then
    if s.any (fun c => 65 ≤ c ∧ c ≤ 90) then s.map lowerByte else s
  else unicodeLower s

/-- Lexicographic byte order on strings, the order of `sort.Strings`. -/
def strLess : GoString → GoString → Bool
  | [], [] => false
  | [], _ :: _ => true
  | _ :: _, [] => false
  | a :: as, b :: bs => if a < b then true else if b < a then false else strLess as bs

/-! ## `net/url`: escaping -/

/-- The escaping modes of `net/url` (`type encoding`). -/
inductive encoding where
  | encodePath
  | encodePathSegment
  | encodeHost
  | encodeZone
  | encodeUserPassword
  | encodeQueryComponent
  | encodeFragment
  deriving DecidableEq, Repr

def ishex (c : Nat) : Bool :=
  (48 ≤ c && c ≤ 57) || (97 ≤ c && c ≤ 102) || (65 ≤ c && c ≤ 70)

def unhex (c : Nat) : Nat :=
  if 48 ≤ c ∧ c ≤ 57 then c - 48
  else if 97 ≤ c ∧ c ≤ 102 then c - 97 + 10
  else if 65 ≤ c ∧ c ≤ 70 then c - 65 + 10
  else 0

/-- Byte `i` of `"0123456789ABCDEF"`. -/
def upperhex (i : Nat) : Nat := if i < 10 then 48 + i else 55 + i

/-- The function `shouldEscape(c, mode)` of `net/url`. -/
def shouldEscape (c : Nat) (mode : encoding) : Bool :=
  if (97 ≤ c ∧ c ≤ 122) ∨ (65 ≤ c ∧ c ≤ 90) ∨ (48 ≤ c ∧ c ≤ 57) then false
  else if (mode = encoding.encodeHost ∨ mode = encoding.encodeZone) ∧
      -- ! $ & ' ( ) * + , ; = : [ ] < > "
      c ∈ [33, 36, 38, 39, 40, 41, 42, 43, 44, 59, 61, 58, 91, 93, 60, 62, 34] then false
  -- - _ . ~
  else if c ∈ [45, 95, 46, 126] then false
  -- $ & + , / : ; = ? @
  else if c ∈ [36, 38, 43, 44, 47, 58, 59, 61, 63, 64] then
    match mode with
    | encoding.encodePath => c == 63
    | encoding.encodePathSegment => c == 47 || c == 59 || c == 44 || c == 63
    | encoding.encodeUserPassword => c == 64 || c == 47 || c == 63 || c == 58
    | encoding.encodeQueryComponent => true
    | encoding.encodeFragment => false
    | _ => true
  -- ! ( ) *
  else if mode = encoding.encodeFragment ∧ c ∈ [33, 40, 41, 42] then false
  else true

/-- First loop of `unescape(s, mode)`: every `%` is followed by two hex digits
(and, for hosts and zones, escapes and plain bytes are of the allowed kind). -/
def unescapeValid (mode : encoding) : GoString → Bool
  | [] => true
  | c :: rest =>
    if c = 37 then
      match rest with
      | h :: l :: rest2 =>
        ishex h && ishex l &&
        !(mode == encoding.encodeHost && decide (unhex h < 8) && !(h == 50 && l == 53)) &&
        !(mode == encoding.encodeZone && !(h == 50 && l == 53) &&
          !(unhex h * 16 + unhex l == 32) &&
          shouldEscape (unhex h * 16 + unhex l) encoding.encodeHost) &&
        unescapeValid mode rest2
      | _ => false
    else if c = 43 then unescapeValid mode rest
    else
      !((mode == encoding.encodeHost || mode == encoding.encodeZone) && decide (c < 128) &&
        shouldEscape c encoding.encodeHost) &&
      unescapeValid mode rest

/-- Second loop of `unescape(s, mode)`, on a string the first loop accepted. -/
def unescapeDecode (mode : encoding) : GoString → GoString
  | [] => []
  | c :: rest =>
    if c = 37 then
      match rest with
      | h :: l :: rest2 => (unhex h * 16 + unhex l) :: unescapeDecode mode rest2
      | _ => []
    else if c = 43 then
      (if mode = encoding.encodeQueryComponent then 32 else 43) :: unescapeDecode mode rest
    else c :: unescapeDecode mode rest

/-- The function `unescape(s, mode)` of `net/url`; `none` is an error return. -/
def unescape (s : GoString) (mode : encoding) : Option GoString :=
  if unescapeValid mode s then some (unescapeDecode mode s) else none

/-- The function `escape(s, mode)` of `net/url`. -/
def escape (s : GoString) (mode : encoding) : GoString :=
  s.flatMap (fun c =>
    if c = 32 ∧ mode = encoding.encodeQueryComponent then [43]
    else if shouldEscape c mode then [37, upperhex (c / 16), upperhex (c % 16)]
    else [c])

def QueryUnescape (s : GoString) : Option GoString := unescape s encoding.encodeQueryComponent

def PathUnescape (s : GoString) : Option GoString := unescape s encoding.encodePathSegment

def QueryEscape (s : GoString) : GoString := escape s encoding.encodeQueryComponent

/-! ## `net/url`: parsing -/

/-- The type `url.Userinfo`. -/
structure Userinfo where
  username : GoString
  password : GoString
  passwordSet : Bool
  deriving DecidableEq, Repr

/-- The type `url.URL`. -/
structure URL where
  Scheme : GoString
  Opaque : GoString
  User : Option Userinfo
  Host : GoString
  Path : GoString
  RawPath : GoString
  OmitHost : Bool
  ForceQuery : Bool
  RawQuery : GoString
  Fragment : GoString
  RawFragment : GoString
  deriving DecidableEq, Repr

/-- The zero value `new(URL)`. -/
def URL.zero : URL := ⟨[], [], none, [], [], [], false, false, [], [], []⟩

/-- A byte below `0x20` or the byte `0x7f` occurs. -/
def stringContainsCTLByte (s : GoString) : Bool := s.any (fun b => b < 32 || b == 127)

/-- The loop of `getScheme`, at index `i` with `cs` the bytes from `i` on;
`none` is the error `missing protocol scheme`. -/
def getSchemeLoop (rawURL : GoString) : Nat → GoString → Option (GoString × GoString)
  | _, [] => some ([], rawURL)
  | i, c :: cs =>
    if (97 ≤ c ∧ c ≤ 122) ∨ (65 ≤ c ∧ c ≤ 90) then getSchemeLoop rawURL (i + 1) cs
    else if (48 ≤ c ∧ c ≤ 57) ∨ c = 43 ∨ c = 45 ∨ c = 46 then
      if i = 0 then some ([], rawURL) else getSchemeLoop rawURL (i + 1) cs
    else if c = 58 then
      if i = 0 then none else some (rawURL.take i, cs)
    else some ([], rawURL)

/-- The function `getScheme(rawURL)`: scheme and the text after the colon. -/
def getScheme (rawURL : GoString) : Option (GoString × GoString) :=
  getSchemeLoop rawURL 0 rawURL

/-- The method `(*URL).setPath`. -/
def setPath (u : URL) (p : GoString) : Option URL :=
  match unescape p encoding.encodePath with
  | none => none
  | some path =>
    some { u with Path := path,
                  RawPath := if p = escape path encoding.encodePath then [] else p }

/-- The method `(*URL).setFragment`. -/
def setFragment (u : URL) (f : GoString) : Option URL :=
  match unescape f encoding.encodeFragment with
  | none => none
  | some frag =>
    some { u with Fragment := frag,
                  RawFragment := if f = escape frag encoding.encodeFragment then [] else f }

/-- The function `validUserinfo`. -/
def validUserinfo (s : GoString) : Bool :=
  s.all (fun r =>
    (65 ≤ r && r ≤ 90) || (97 ≤ r && r ≤ 122) || (48 ≤ r && r ≤ 57) ||
    -- - . _ : ~ ! $ & ' ( ) * + , ; = % @
    decide (r ∈ [45, 46, 95, 58, 126, 33, 36, 38, 39, 40, 41, 42, 43, 44, 59, 61, 37, 64]))

/-- The function `validOptionalPort`: empty, or a colon followed by digits. -/
def validOptionalPort (port : GoString) : Bool :=
  match port with
  | [] => true
  | c :: ds => c == 58 && ds.all (fun b => 48 ≤ b && b ≤ 57)

/-- The function `parseHost`. -/
def parseHost (host : GoString) : Option GoString :=
  if host.head? = some 91 then
    match cutLast host 93 with
    | none => none
    | some (inner, colonPort) =>
      if !validOptionalPort colonPort then none
      else
        match Index inner (lit "%25") with
        | some zone =>
          match unescape (inner.take zone) encoding.encodeHost,
                unescape (inner.drop zone) encoding.encodeZone,
                unescape (93 :: colonPort) encoding.encodeHost with
          | some host1, some host2, some host3 => some (host1 ++ host2 ++ host3)
          | _, _, _ => none
        | none => unescape host encoding.encodeHost
  else
    match cutLast host 58 with
    | some (_, port) =>
      if !validOptionalPort (58 :: port) then none else unescape host encoding.encodeHost
    | none => unescape host encoding.encodeHost

/-- The user part of `parseAuthority`, on the text before the last `@`. -/
def parseUserinfo (userinfo : GoString) : Option Userinfo :=
  if !validUserinfo userinfo then none
  else if !userinfo.contains 58 then
    match unescape userinfo encoding.encodeUserPassword with
    | some username => some ⟨username, [], false⟩
    | none => none
  else
    match unescape (Cut userinfo 58).1 encoding.encodeUserPassword,
          unescape (Cut userinfo 58).2.1 encoding.encodeUserPassword with
    | some username, some password => some ⟨username, password, true⟩
    | _, _ => none

/-- The function `parseAuthority`: user and host. -/
def parseAuthority (authority : GoString) : Option (Option Userinfo × GoString) :=
  match cutLast authority 64 with
  | none =>
    match parseHost authority with
    | some host => some (none, host)
    | none => none
  | some (userinfo, hostText) =>
    match parseHost hostText with
    | none => none
    | some host =>
      match parseUserinfo userinfo with
      | some user => some (some user, host)
      | none => none

/-- The part of `parse` after scheme and query are split off: `rest` is the
text between them. -/
def parseRest (url : URL) (rest : GoString) (viaRequest : Bool) : Option URL :=
  if rest.head? ≠ some 47 ∧ url.Scheme ≠ [] then
    some { url with Opaque := rest }
  else if rest.head? ≠ some 47 ∧ viaRequest then none
  else if rest.head? ≠ some 47 ∧ (Cut rest 47).1.contains 58 then none
  else if (url.Scheme ≠ [] ∨ (¬ viaRequest ∧ ¬ (lit "///").isPrefixOf rest)) ∧
      (lit "//").isPrefixOf rest then
    match parseAuthority ((rest.drop 2).takeWhile (fun c => c != 47)) with
    | none => none
    | some (user, host) =>
      setPath { url with User := user, Host := host } ((rest.drop 2).dropWhile (fun c => c != 47))
  else if url.Scheme ≠ [] ∧ rest.head? = some 47 then
    setPath { url with OmitHost := true } rest
  else setPath url rest

/-- The function `parse(rawURL, viaRequest)` of `net/url` (as of Go 1.19/1.20);
`none` is an error return. -/
def parse (rawURL : GoString) (viaRequest : Bool) : Option URL :=
  if stringContainsCTLByte rawURL then none
  else if rawURL = [] ∧ viaRequest then none
  else if rawURL = [42] then some { URL.zero with Path := [42] }
  else
    match getScheme rawURL with
    | none => none
    | some (scheme, rest) =>
      if rest.getLast? = some 63 ∧ rest.count 63 = 1 then
        parseRest { URL.zero with Scheme := scheme.map lowerByte, ForceQuery := true }
          rest.dropLast viaRequest
      else
        parseRest { URL.zero with Scheme := scheme.map lowerByte, RawQuery := (Cut rest 63).2.1 }
          (Cut rest 63).1 viaRequest

/-- The function `url.Parse(rawURL)`. -/
def Parse (rawURL : GoString) : Option URL :=
  match parse (Cut rawURL 35).1 false with
  | none => none
  | some url =>
    if (Cut rawURL 35).2.1 = [] then some url else setFragment url (Cut rawURL 35).2.1

/-! ## `net/url`: query values -/

/-- The type `url.Values` (also `http.Header`), a map from keys to lists of
values.  A Go map has no order of its own; the entries are kept here in the
order `Values.Encode` visits them, sorted by key. -/
abbrev Values := List (GoString × List GoString)

/-- The update `m[key] = append(m[key], value)` (`Values.Add`). -/
def Values.Add : Values → GoString → GoString → Values
  | [], key, value => [(key, [value])]
  | (k, vs) :: rest, key, value =>
    if k = key then (k, vs ++ [value]) :: rest
    else if strLess key k then (key, [value]) :: (k, vs) :: rest
    else (k, vs) :: Values.Add rest key value

/-- The update `m[key] = []string{value}` (`Header.Set`, `Values.Set`). -/
def Values.Set : Values → GoString → GoString → Values
  | [], key, value => [(key, [value])]
  | (k, vs) :: rest, key, value =>
    if k = key then (k, [value]) :: rest
    else if strLess key k then (key, [value]) :: (k, vs) :: rest
    else (k, vs) :: Values.Set rest key value

/-- The lookup `m[key]`: the values under `key`, empty when the key is absent. -/
def Values.lookupAll (v : Values) (key : GoString) : List GoString :=
  (v.lookup key).getD []

/-- The method `Values.Get`: first value under `key`, or the empty string. -/
def Values.Get (v : Values) (key : GoString) : GoString :=
  (Values.lookupAll v key).headD []

/-- One step of the loop of `parseQuery`, on the piece `key` of the query
between two `&`: pieces with a semicolon, empty pieces and pieces that do not
unescape are skipped. -/
def parseQueryStep (m : Values) (piece : GoString) : Values :=
  if piece.contains 59 then m
  else if piece = [] then m
  else
    match QueryUnescape (Cut piece 61).1, QueryUnescape (Cut piece 61).2.1 with
    | some key, some value => Values.Add m key value
    | _, _ => m

/-- The values `url.ParseQuery(query)` returns (with or without an error). -/
def ParseQuery (query : GoString) : Values :=
  (splitByte 38 query).foldl parseQueryStep []

/-- The method `(*URL).Query`. -/
def URL.Query (u : URL) : Values := ParseQuery u.RawQuery

/-- The method `Values.Encode`: `key=value` pairs, escaped, sorted by key,
joined by `&`. -/
def Values.Encode (v : Values) : GoString :=
  [38].intercalate
    (v.flatMap (fun kv => kv.2.map (fun value => QueryEscape kv.1 ++ [61] ++ QueryEscape value)))

/-! ## `encoding/base64`, `net/http` -/

/-- Character `i` of the standard base64 alphabet. -/
def base64Char (i : Nat) : Nat :=
  if i < 26 then 65 + i
  else if i < 52 then 97 + (i - 26)
  else if i < 62 then 48 + (i - 52)
  else if i = 62 then 43
  else 47

/-- The function `base64.StdEncoding.EncodeToString`. -/
def base64Encode : GoString → GoString
  | [] => []
  | [a] => [base64Char (a / 4), base64Char (a % 4 * 16), 61, 61]
  | [a, b] => [base64Char (a / 4), base64Char (a % 4 * 16 + b / 16), base64Char (b % 16 * 4), 61]
  | a :: b :: c :: rest =>
    base64Char (a / 4) :: base64Char (a % 4 * 16 + b / 16) ::
      base64Char (b % 16 * 4 + c / 64) :: base64Char (c % 64) :: base64Encode rest

/-- An outgoing `*http.Request`: method, URL and header. -/
structure ClientRequest where
  Method : GoString
  URL : URL
  Header : Values
  deriving DecidableEq, Repr

/-- The function `removeEmptyPort` of `net/http`: a trailing colon of the host is dropped. -/
def removeEmptyPort (host : GoString) : GoString :=
  if host.getLast? = some 58 then host.dropLast else host

/-- The function `validMethod` of `net/http`: a non-empty string of token bytes
(letters, digits and the marks of `isTokenTable`). -/
def validMethod (method : GoString) : Bool :=
  method.length > 0 &&
  method.all (fun c =>
    (97 ≤ c && c ≤ 122) || (65 ≤ c && c ≤ 90) || (48 ≤ c && c ≤ 57) ||
    decide (c ∈ [33, 35, 36, 37, 38, 39, 42, 43, 45, 46, 94, 95, 96, 124, 126]))

/-- The function `http.NewRequest(method, url, nil)`: it fails when the method
is not valid or `url.Parse` fails; the new request has an empty header. -/
def NewRequest (method url : GoString) : Option ClientRequest :=
  if !validMethod (if method = [] then lit "GET" else method) then none
  else
    match Parse url with
    | none => none
    | some u =>
      some ⟨if method = [] then lit "GET" else method,
        { u with Host := removeEmptyPort u.Host }, []⟩

/-- The method `(*http.Request).SetBasicAuth`. -/
def SetBasicAuth (req : ClientRequest) (username password : GoString) : ClientRequest :=
  { req with
    Header := Values.Set req.Header (lit "Authorization")
      (lit "Basic " ++ base64Encode (username ++ [58] ++ password)) }

/-! ## Errors and error responses -/

/-- The dynamic type of a Go `error`, as told apart by the type switches in
`getTriggerFromRequest` and `triggerCheck`.  `other` stands for every type that
no `case` of these switches names. -/
inductive ErrType where
  | localErrParseExpr
  | localErrEvalExpr
  | localErrUnknownFunction
  | expressionErrInvalidExpression
  | apiErrInvalidRequestContent
  | remoteErrRemoteTriggerResponse
  | jsonUnmarshalTypeError
  | other
  deriving DecidableEq, Repr

/-- A Go `error`: dynamic type and the text `Error()` returns. -/
structure GoError where
  dynType : ErrType
  text : GoString
  deriving DecidableEq, Repr

/-- The error made by `fmt.Errorf(format, ...)`: a fresh error of a type none of
the switches names, whose text is the formatted message. -/
def fmtErrorf (msg : GoString) : GoError := ⟨ErrType.other, msg⟩

/-- The `*api.ErrorResponse` values the handlers build: one constructor for each
constructor function of package `api` that the handlers call, applied to the
error it is given, and `fromController` for a response handed back by package
`controller`. -/
inductive ErrorResponse where
  | ErrorInvalidRequest (err : GoError)
  | ErrorInternalServer (err : GoError)
  | ErrorRemoteServerUnavailable (err : GoError)
  | ErrorRender (err : GoError)
  | fromController (text : GoString)
  deriving DecidableEq, Repr

/-! ## Requests, triggers -/

/-- The part of `*http.Request` the handlers read: the request-context values
behind the `middleware.Get...` accessors and the parsed form. -/
structure Request where
  /-- Value returned by `middleware.GetRemoteMetricTTL`, a `time.Duration` (nanoseconds). -/
  remoteMetricTTL : Int
  /-- Value returned by `middleware.GetLocalMetricTTL`. -/
  localMetricTTL : Int
  /-- Value returned by `middleware.GetLogin`. -/
  login : GoString
  /-- Value returned by `middleware.GetTimeSeriesNames`. -/
  timeSeriesNames : List GoString
  /-- The parsed form `request.Form`: keys with their values. -/
  form : Values
  deriving DecidableEq, Repr

/-- The fields of `dto.Trigger` the handlers touch. -/
structure Trigger where
  Targets : List GoString
  IsRemote : Bool
  Desc : Option GoString
  UpdatedBy : GoString
  deriving DecidableEq, Repr

def GetRemoteMetricTTL (request : Request) : Int := request.remoteMetricTTL

def GetLocalMetricTTL (request : Request) : Int := request.localMetricTTL

def GetLogin (request : Request) : GoString := request.login

def GetTimeSeriesNames (request : Request) : List GoString := request.timeSeriesNames

/-- Response of `controller.CreateTrigger` (`dto.SaveTriggerResponse`);
`CheckResultTargets` is the field `CheckResult.Targets`, a slice that may be nil. -/
structure SaveTriggerResponse (Tree : Type) where
  ID : GoString
  Message : GoString
  CheckResultTargets : Option (List Tree)

/-- Response of the check handler (`dto.TriggerCheckResponse`); `Targets` is a
slice that may be nil. -/
structure TriggerCheckResponse (Tree : Type) where
  Targets : Option (List Tree)

/-- The collaborators of the handlers that live outside the embedded files.
`Tree` is `dto.TreeOfProblems`. -/
structure Env (Tree : Type) where
  /-- Outcome of `render.Bind(request, trigger)` on the empty trigger: the
  trigger as the call leaves it, and the error it returns, if any. -/
  renderBind : Request → Trigger × Option GoError
  /-- The handler-package helper `needValidate(request)`. -/
  needValidate : Request → Bool
  /-- The handler-package helper `validateTargets(request, trigger)`; `none` is a nil slice. -/
  validateTargets : Request → Trigger → Option (List Tree)
  /-- The function `dto.DoesAnyTreeHaveError`. -/
  DoesAnyTreeHaveError : List Tree → Bool
  /-- The method `trigger.PopulatedDescription(moira.NotificationEvents{{}})`: its error, if any. -/
  PopulatedDescription : Trigger → Option GoError
  /-- The function `controller.CreateTrigger(database, &trigger.TriggerModel, timeSeriesNames)`. -/
  CreateTrigger : Trigger → List GoString → Except ErrorResponse (SaveTriggerResponse Tree)
  /-- The call `render.Render(writer, request, response)` on a success response: its error, if any. -/
  renderSave : SaveTriggerResponse Tree → Option GoError
  /-- The function `dto.TargetVerification(targets, ttl, isRemote)`. -/
  TargetVerification : List GoString → Int → Bool → List Tree

/-- What a handler does to the outside, in program order. -/
inductive Effect (Tree : Type) where
  /-- The call `render.Render(writer, request, errorResponse)`. -/
  | renderError (resp : ErrorResponse)
  /-- The logger call in the remote case of `getTriggerFromRequest`. -/
  | logRemoteUnavailable (err : GoError)
  /-- The call `writeErrorSaveResponse(writer, request, problems)`. -/
  | writeErrorSaveResponse (problems : List Tree)
  /-- The call `controller.CreateTrigger(database, model, names)`. -/
  | callCreateTrigger (trigger : Trigger) (names : List GoString)
  /-- The call `render.Render(writer, request, response)` on a save response. -/
  | renderSaveResponse (resp : SaveTriggerResponse Tree)
  /-- The call `dto.TargetVerification(targets, ttl, isRemote)`. -/
  | callTargetVerification (targets : List GoString) (ttl : Int) (isRemote : Bool)
  /-- The call `render.JSON(writer, request, response)`. -/
  | renderJSON (resp : TriggerCheckResponse Tree)

/-! ## `api/handler/triggers.go` -/

/-- The function `getTriggerFromRequest`: the effects (the log line of the
remote case), the returned trigger and the returned error response. -/
def getTriggerFromRequest {Tree : Type} (env : Env Tree) (request : Request) :
    List (Effect Tree) × Option Trigger × Option ErrorResponse :=
  match env.renderBind request with
  | (_, some err) =>
    match err.dynType with
    | ErrType.localErrParseExpr | ErrType.localErrEvalExpr | ErrType.localErrUnknownFunction =>
      ([], none, some (ErrorResponse.ErrorInvalidRequest
        (fmtErrorf (lit "invalid graphite targets: " ++ err.text))))
    | ErrType.expressionErrInvalidExpression =>
      ([], none, some (ErrorResponse.ErrorInvalidRequest
        (fmtErrorf (lit "invalid expression: " ++ err.text))))
    | ErrType.apiErrInvalidRequestContent =>
      ([], none, some (ErrorResponse.ErrorInvalidRequest err))
    | ErrType.remoteErrRemoteTriggerResponse =>
      ([Effect.logRemoteUnavailable err], none,
        some (ErrorResponse.ErrorRemoteServerUnavailable err))
    | ErrType.jsonUnmarshalTypeError =>
      ([], none, some (ErrorResponse.ErrorInvalidRequest
        (fmtErrorf (lit "invalid payload: " ++ err.text))))
    | ErrType.other =>
      ([], none, some (ErrorResponse.ErrorInternalServer err))
  | (trigger, none) =>
    ([], some { trigger with UpdatedBy := GetLogin request }, none)

/-- The function `getMetricTTLByTrigger`. -/
def getMetricTTLByTrigger (request : Request) (trigger : Trigger) : Int :=
  if trigger.IsRemote then GetRemoteMetricTTL request else GetLocalMetricTTL request

/-- The tail of `createTrigger`, from the description check on. -/
def createTriggerPersist {Tree : Type} (env : Env Tree) (request : Request)
    (trigger : Trigger) (problems : Option (List Tree)) : List (Effect Tree) :=
  match (if trigger.Desc.isSome then env.PopulatedDescription trigger else none) with
  | some err => [Effect.renderError (ErrorResponse.ErrorRender err)]
  | none =>
    let timeSeriesNames := GetTimeSeriesNames request
    Effect.callCreateTrigger trigger timeSeriesNames ::
      match env.CreateTrigger trigger timeSeriesNames with
      | Except.error err => [Effect.renderError err]
      | Except.ok response =>
        let response : SaveTriggerResponse Tree :=
          match problems with
          | some ps => { response with CheckResultTargets := some ps }
          | none => response
        Effect.renderSaveResponse response ::
          match env.renderSave response with
          | some err => [Effect.renderError (ErrorResponse.ErrorRender err)]
          | none => []

/-- The handler `createTrigger`. -/
def createTrigger {Tree : Type} (env : Env Tree) (request : Request) : List (Effect Tree) :=
  match getTriggerFromRequest env request with
  | (log, _, some err) => log ++ [Effect.renderError err]
  | (log, none, none) => log
  | (log, some trigger, none) =>
    if env.needValidate request then
      let problems := env.validateTargets request trigger
      match problems with
      | some ps =>
        if env.DoesAnyTreeHaveError ps then
          log ++ [Effect.writeErrorSaveResponse ps]
        else
          log ++ createTriggerPersist env request trigger problems
      | none => log ++ createTriggerPersist env request trigger problems
    else
      log ++ createTriggerPersist env request trigger none

/-- The four kinds of bind error that `triggerCheck` lets through. -/
def ignoredInCheck (t : ErrType) : Prop :=
  t = ErrType.expressionErrInvalidExpression ∨ t = ErrType.localErrParseExpr ∨
  t = ErrType.localErrEvalExpr ∨ t = ErrType.localErrUnknownFunction

/-- The tail of `triggerCheck`, after the bind error, if any, was let through. -/
def triggerCheckVerify {Tree : Type} (env : Env Tree) (request : Request)
    (trigger : Trigger) : List (Effect Tree) :=
  let ttl := getMetricTTLByTrigger request trigger
  if 0 < trigger.Targets.length then
    [Effect.callTargetVerification trigger.Targets ttl trigger.IsRemote,
     Effect.renderJSON ⟨some (env.TargetVerification trigger.Targets ttl trigger.IsRemote)⟩]
  else
    [Effect.renderJSON ⟨none⟩]

/-- The handler `triggerCheck`. -/
def triggerCheck {Tree : Type} (env : Env Tree) (request : Request) : List (Effect Tree) :=
  match env.renderBind request with
  | (trigger, some err) =>
    match err.dynType with
    | ErrType.expressionErrInvalidExpression | ErrType.localErrParseExpr
    | ErrType.localErrEvalExpr | ErrType.localErrUnknownFunction =>
      triggerCheckVerify env request trigger
    | _ => [Effect.renderError (ErrorResponse.ErrorInvalidRequest err)]
  | (trigger, none) => triggerCheckVerify env request trigger

/-- The method `request.FormValue(key)`: the first value under `key` in the
parsed form, the empty string when there is none. -/
def FormValue (request : Request) (key : GoString) : GoString :=
  Values.Get request.form key

/-- The key `fmt.Sprintf("tags[%v]", i)`. -/
def tagKey (i : Nat) : GoString := lit "tags[" ++ FormatInt i ++ lit "]"

/-- The loop of `getRequestTags` from index `i` on, with the tags collected so
far; `fuel` bounds the number of iterations, `none` means the bound was reached
before the loop left. -/
def getRequestTagsLoop (request : Request) : Nat → Nat → List GoString → Option (List GoString)
  | 0, _, _ => none
  | fuel + 1, i, filterTags =>
    if FormValue request (tagKey i) = [] then some filterTags
    else getRequestTagsLoop request fuel (i + 1) (filterTags ++ [FormValue request (tagKey i)])

/-- The function `getRequestTags`, run for at most `fuel` iterations. -/
def getRequestTags (fuel : Nat) (request : Request) : Option (List GoString) :=
  getRequestTagsLoop request fuel 0 []

/-- The function `getSearchRequestString`: the form value `text`, lowered, then
path-unescaped; the error of `url.PathUnescape` is dropped, and with it comes
the empty string. -/
def getSearchRequestString (unicodeLower : GoString → GoString) (request : Request) : GoString :=
  (PathUnescape (ToLower unicodeLower (FormValue request (lit "text")))).getD []

/-- The normalization of the search text that `getSearchRequestString` applies
to the form value: `strings.ToLower`, then `url.PathUnescape`. -/
def normalizeSearchText (unicodeLower : GoString → GoString) (searchText : GoString) : GoString :=
  (PathUnescape (ToLower unicodeLower searchText)).getD []

/-- A request whose form holds the given entries and whose context values are empty. -/
def requestWithForm (form : Values) : Request := ⟨0, 0, [], [], form⟩

/-- A string of printable ASCII bytes (`0x20` to `0x7e`). -/
def printableASCII (s : GoString) : Prop := ∀ c ∈ s, 32 ≤ c ∧ c ≤ 126

instance (s : GoString) : Decidable (printableASCII s) := by
  unfold printableASCII; infer_instance

/-! ## `metric_source/remote/request.go` -/

namespace remote

/-- The fields of `remote.Config` the request code reads. -/
structure Config where
  URL : GoString
  User : GoString
  Password : GoString
  deriving DecidableEq, Repr

/-- A received `*http.Response`: status code, and what `io.ReadAll(resp.Body)`
gives, the bytes read and the read error, if any. -/
structure Response where
  StatusCode : Int
  readAll : GoString × Option GoError
  deriving DecidableEq, Repr

/-- What `client.Do(req)` returns.  By the contract of `http.Client.Do` a nil
error comes with a response; an error may come with a response or without. -/
inductive DoResult where
  | failed (resp : Option Response) (err : GoError)
  | received (resp : Response)
  deriving DecidableEq, Repr

/-- The `*http.Client` of the remote source: the text of `Timeout.String()` and
the outcome of `Do` on a request. -/
structure Client where
  TimeoutString : GoString
  Do : ClientRequest → DoResult

/-- The type `remote.Remote`. -/
structure Remote where
  config : Config
  client : Client

/-- What `makeRequest` returns, and whether the deferred `resp.Body.Close()` ran. -/
structure MakeResult where
  body : GoString
  err : Option GoError
  bodyClosed : Bool
  deriving DecidableEq, Repr

/-- The method `prepareRequest`; `none` is the error return of `http.NewRequest`. -/
def prepareRequest (remote : Remote) («from» «until» : Int) (target : GoString) :
    Option ClientRequest :=
  match NewRequest (lit "GET") remote.config.URL with
  | none => none
  | some req =>
    let q := req.URL.Query
    let q := Values.Add q (lit "format") (lit "json")
    let q := Values.Add q (lit "from") (FormatInt «from»)
    let q := Values.Add q (lit "target") target
    let q := Values.Add q (lit "until") (FormatInt «until»)
    let req : ClientRequest := { req with URL := { req.URL with RawQuery := Values.Encode q } }
    if remote.config.User ≠ [] ∧ remote.config.Password ≠ [] then
      some (SetBasicAuth req remote.config.User remote.config.Password)
    else some req

/-- The method `makeRequest`. -/
def makeRequest (remote : Remote) (req : ClientRequest) : MakeResult :=
  match remote.client.Do req with
  | DoResult.failed resp err =>
    ⟨[], some (fmtErrorf
      (lit "The remote server is not available or the response was reset by timeout. " ++
        lit "TTL: " ++ remote.client.TimeoutString ++ lit ", PATH: " ++ req.URL.RawPath ++
        lit ", ERROR: " ++ err.text ++ lit " ")), resp.isSome⟩
  | DoResult.received resp =>
    match resp.readAll with
    | (body, some err) => ⟨body, some err, true⟩
    | (body, none) =>
      if resp.StatusCode ≠ 200 then
        ⟨body, some (fmtErrorf
          (lit "bad response status " ++ FormatInt resp.StatusCode ++ lit ": " ++ body)), true⟩
      else ⟨body, none, true⟩

end remote

/-! ## Problem trees and concrete inputs -/

/-- Modelled from the spec: the kinds of problem node of a Problem Tree (the
type `dto.TreeOfProblems` is not among the embedded files): parse error,
evaluation error, unknown-function error, and the non-fatal staleness warning. -/
inductive ProblemKind where
  | ParseError
  | EvalError
  | UnknownFunctionError
  | StalenessWarning
  deriving DecidableEq, Repr

/-- Modelled from the spec: a Problem Tree, the verification result for one
target: an OK leaf or a typed problem node over subtrees. -/
inductive ProblemTree where
  | ok
  | node (kind : ProblemKind) (subtrees : List ProblemTree)

mutual
/-- Modelled from the spec: an error-typed node occurs somewhere in the tree. -/
def ProblemTree.hasError : ProblemTree → Bool
  | ProblemTree.ok => false
  | ProblemTree.node kind subtrees => kind != ProblemKind.StalenessWarning || anyTreeHasError subtrees
/-- Modelled from the spec: the function `dto.DoesAnyTreeHaveError`, true when
some tree of the list holds an error-typed node. -/
def anyTreeHasError : List ProblemTree → Bool
  | [] => false
  | t :: ts => t.hasError || anyTreeHasError ts
end

/-- A trigger with one target that does not parse. -/
def sampleTrigger : Trigger := ⟨[lit "sumSeries(a.b"], false, none, []⟩

/-- The problem trees of `sampleTrigger`: a parse error at the root. -/
def sampleProblems : List ProblemTree := [ProblemTree.node ProblemKind.ParseError []]

/-- A request with empty context values and an empty form. -/
def sampleRequest : Request := requestWithForm []

/-- An environment in which the request binds to `sampleTrigger` with the given
bind error, `needValidate` answers `validate`, target validation yields
`sampleProblems`, and persistence and rendering succeed. -/
def sampleEnv (bindErr : Option GoError) (validate : Bool) : Env ProblemTree where
  renderBind := fun _ => (sampleTrigger, bindErr)
  needValidate := fun _ => validate
  validateTargets := fun _ _ => some sampleProblems
  DoesAnyTreeHaveError := anyTreeHasError
  PopulatedDescription := fun _ => none
  CreateTrigger := fun _ _ => Except.ok ⟨lit "id", lit "trigger created", none⟩
  renderSave := fun _ => none
  TargetVerification := fun _ _ _ => sampleProblems

/-- A bind error of the remote-source kind. -/
def remoteBindError : GoError :=
  ⟨ErrType.remoteErrRemoteTriggerResponse, lit "remote server is unavailable"⟩

/-- A bind error of a type no switch names. -/
def unclassifiedBindError : GoError := ⟨ErrType.other, lit "unexpected EOF"⟩

/-- A bind error of the parse kind. -/
def parseBindError : GoError := ⟨ErrType.localErrParseExpr, lit "failed to parse"⟩

/-- A remote source at the given URL with the given credentials, a client
timeout that prints as `10s`, and a client whose `Do` gives `outcome`. -/
def sampleRemote (url user password : GoString) (outcome : remote.DoResult) : remote.Remote :=
  ⟨⟨url, user, password⟩, ⟨lit "10s", fun _ => outcome⟩⟩

/-- A transport failure as `http.Client.Do` reports it when the remote answers
the request with a redirect and the redirect target does not answer in time:
the `*url.Error` names the URL of the last request of the chain. -/
def sampleTransportError : GoError :=
  ⟨ErrType.other, lit ("Get \"http://sso.example/login\": " ++
    "context deadline exceeded (Client.Timeout exceeded while awaiting headers)")⟩

end Moira

/-! # Theorems -/

namespace Moira

/-! ## TTL selection -/

/-- C1: for every request and trigger `getMetricTTLByTrigger` returns the remote
metric TTL of the request context when the trigger's `IsRemote` flag is set and
the local metric TTL otherwise; and the TTL it selects is the remote one (at
every request) exactly when the trigger is marked remote. -/
theorem getMetricTTLByTrigger_selects :
    (∀ (request : Request) (trigger : Trigger),
      getMetricTTLByTrigger request trigger =
        if trigger.IsRemote = true then GetRemoteMetricTTL request
        else GetLocalMetricTTL request) ∧
    (∀ trigger : Trigger,
      (∀ request : Request,
        getMetricTTLByTrigger request trigger = GetRemoteMetricTTL request) ↔
      trigger.IsRemote = true) := by
  refine ⟨fun request trigger => rfl, fun trigger => ⟨fun h => ?_, fun h request => ?_⟩⟩
  · cases hr : trigger.IsRemote with
    | true => rfl
    | false =>
      have h1 := h ⟨1, 0, [], [], []⟩
      simp [getMetricTTLByTrigger, hr, GetRemoteMetricTTL, GetLocalMetricTTL] at h1
  · simp [getMetricTTLByTrigger, h]

/-! ## Bind errors in the create flow and in the check flow -/

/-- C10: for every bind error of kind `ErrParseExpr`, `ErrEvalExpr`,
`ErrUnknownFunction` or `ErrInvalidExpression`, `getTriggerFromRequest` returns
no trigger and an invalid-request error response (and logs nothing), whereas
`triggerCheck` writes no error response and renders the check response, with
target verification run (and its result put in the response) when the trigger
has at least one target, and without it when the trigger has none. -/
theorem bind_error_create_rejects_check_ignores {Tree : Type} (env : Env Tree)
    (request : Request) (trigger : Trigger) (err : GoError)
    (hbind : env.renderBind request = (trigger, some err))
    (hkind : ignoredInCheck err.dynType) :
    (∃ e : GoError, getTriggerFromRequest env request =
        ([], none, some (ErrorResponse.ErrorInvalidRequest e)) ∧
      (e = fmtErrorf (lit "invalid graphite targets: " ++ err.text) ∨
       e = fmtErrorf (lit "invalid expression: " ++ err.text))) ∧
    (∀ resp : ErrorResponse, Effect.renderError resp ∉ triggerCheck env request) ∧
    (0 < trigger.Targets.length →
      triggerCheck env request =
        [Effect.callTargetVerification trigger.Targets
            (getMetricTTLByTrigger request trigger) trigger.IsRemote,
         Effect.renderJSON ⟨some (env.TargetVerification trigger.Targets
            (getMetricTTLByTrigger request trigger) trigger.IsRemote)⟩]) ∧
    (trigger.Targets = [] → triggerCheck env request = [Effect.renderJSON ⟨none⟩]) := by
  have hcheck : triggerCheck env request = triggerCheckVerify env request trigger := by
    rcases hkind with h | h | h | h <;> simp [triggerCheck, hbind, h]
  refine ⟨?_, ?_, ?_, ?_⟩
  · rcases hkind with h | h | h | h
    · exact ⟨_, by simp [getTriggerFromRequest, hbind, h], Or.inr rfl⟩
    · exact ⟨_, by simp [getTriggerFromRequest, hbind, h], Or.inl rfl⟩
    · exact ⟨_, by simp [getTriggerFromRequest, hbind, h], Or.inl rfl⟩
    · exact ⟨_, by simp [getTriggerFromRequest, hbind, h], Or.inl rfl⟩
  · intro resp
    rw [hcheck]
    unfold triggerCheckVerify
    by_cases hlen : 0 < trigger.Targets.length <;> simp [hlen]
  · intro hlen
    rw [hcheck]
    simp [triggerCheckVerify, hlen]
  · intro hnil
    rw [hcheck]
    simp [triggerCheckVerify, hnil]

/-- Witness of C10: a request that binds to a trigger with one target, with a
parse error. -/
theorem bind_error_create_rejects_check_ignores_witness :
    getTriggerFromRequest (sampleEnv (some parseBindError) false) sampleRequest =
        ([], none, some (ErrorResponse.ErrorInvalidRequest
          (fmtErrorf (lit "invalid graphite targets: failed to parse")))) ∧
    triggerCheck (sampleEnv (some parseBindError) false) sampleRequest =
        [Effect.callTargetVerification [lit "sumSeries(a.b"] 0 false,
         Effect.renderJSON ⟨some sampleProblems⟩] := by
  have h := bind_error_create_rejects_check_ignores (sampleEnv (some parseBindError) false)
    sampleRequest sampleTrigger parseBindError rfl (Or.inr (Or.inl rfl))
  exact ⟨rfl, h.2.2.1 (by decide)⟩

/-- C9, as the code has it: in the create flow (`getTriggerFromRequest`) a bind
error of the remote-source kind is logged and returned as a
remote-server-unavailable response, and a bind error of a kind no case names is
returned as an internal-server-error response; in the check flow
(`triggerCheck`) every bind error outside the four kinds that are let through,
a remote-source error and an unclassified error included, is rendered as an
invalid-request response and nothing else is done. -/
theorem bind_error_remote_and_unclassified {Tree : Type} (env : Env Tree)
    (request : Request) (trigger : Trigger) (err : GoError)
    (hbind : env.renderBind request = (trigger, some err)) :
    (err.dynType = ErrType.remoteErrRemoteTriggerResponse →
      getTriggerFromRequest env request =
        ([Effect.logRemoteUnavailable err], none,
          some (ErrorResponse.ErrorRemoteServerUnavailable err))) ∧
    (err.dynType = ErrType.other →
      getTriggerFromRequest env request =
        ([], none, some (ErrorResponse.ErrorInternalServer err))) ∧
    (¬ ignoredInCheck err.dynType →
      triggerCheck env request =
        [Effect.renderError (ErrorResponse.ErrorInvalidRequest err)]) := by
  refine ⟨fun h => ?_, fun h => ?_, fun h => ?_⟩
  · simp [getTriggerFromRequest, hbind, h]
  · simp [getTriggerFromRequest, hbind, h]
  · unfold ignoredInCheck at h
    cases hk : err.dynType <;> simp [hk] at h <;> simp [triggerCheck, hbind, hk]

/-- Witness of the amended C9: a request whose bind fails with a remote-source error. -/
theorem bind_error_remote_and_unclassified_witness :
    getTriggerFromRequest (sampleEnv (some remoteBindError) false) sampleRequest =
        ([Effect.logRemoteUnavailable remoteBindError], none,
          some (ErrorResponse.ErrorRemoteServerUnavailable remoteBindError)) ∧
    triggerCheck (sampleEnv (some remoteBindError) false) sampleRequest =
        [Effect.renderError (ErrorResponse.ErrorInvalidRequest remoteBindError)] := by
  have h := bind_error_remote_and_unclassified (sampleEnv (some remoteBindError) false)
    sampleRequest sampleTrigger remoteBindError rfl
  exact ⟨h.1 rfl, h.2.2 (by simp [ignoredInCheck, remoteBindError])⟩

/-- Counterexample to C9 as stated: in the check flow a remote-source bind error
is rendered as an invalid-request response, not as a remote-server-unavailable
one, and an unclassified bind error is rendered as an invalid-request response,
not as an internal-server-error one. -/
theorem triggerCheck_remote_error_counterexample :
    (triggerCheck (sampleEnv (some remoteBindError) false) sampleRequest =
        [Effect.renderError (ErrorResponse.ErrorInvalidRequest remoteBindError)] ∧
      Effect.renderError (ErrorResponse.ErrorRemoteServerUnavailable remoteBindError) ∉
        triggerCheck (sampleEnv (some remoteBindError) false) sampleRequest) ∧
    (triggerCheck (sampleEnv (some unclassifiedBindError) false) sampleRequest =
        [Effect.renderError (ErrorResponse.ErrorInvalidRequest unclassifiedBindError)] ∧
      Effect.renderError (ErrorResponse.ErrorInternalServer unclassifiedBindError) ∉
        triggerCheck (sampleEnv (some unclassifiedBindError) false) sampleRequest) := by
  refine ⟨⟨rfl, ?_⟩, ⟨rfl, ?_⟩⟩
  · show _ ∉ [Effect.renderError (ErrorResponse.ErrorInvalidRequest remoteBindError)]
    simp
  · show _ ∉ [Effect.renderError (ErrorResponse.ErrorInvalidRequest unclassifiedBindError)]
    simp

/-! ## Validation before persistence -/

/-- C8, as the code has it: for every create request that binds successfully
and for which `needValidate(request)` holds, if validating the trigger's
targets yields problem trees one of which contains an error, `createTrigger`
writes the error-save response and does nothing else, so
`controller.CreateTrigger` is never called; for a request for which
`needValidate(request)` does not hold no validation is run and the handler goes
on to the persistence steps. -/
theorem createTrigger_validation_guard {Tree : Type} (env : Env Tree) (request : Request)
    (trigger : Trigger) (hbind : env.renderBind request = (trigger, none)) :
    (∀ problems : List Tree, env.needValidate request = true →
      env.validateTargets request { trigger with UpdatedBy := GetLogin request } = some problems →
      env.DoesAnyTreeHaveError problems = true →
      createTrigger env request = [Effect.writeErrorSaveResponse problems] ∧
      ∀ model names, Effect.callCreateTrigger model names ∉ createTrigger env request) ∧
    (env.needValidate request = false →
      createTrigger env request =
        createTriggerPersist env request { trigger with UpdatedBy := GetLogin request } none) := by
  refine ⟨fun problems hv hp he => ?_, fun hv => ?_⟩
  · have h : createTrigger env request = [Effect.writeErrorSaveResponse problems] := by
      simp [createTrigger, getTriggerFromRequest, hbind, hv, hp, he]
    refine ⟨h, fun model names => ?_⟩
    rw [h]
    simp
  · simp [createTrigger, getTriggerFromRequest, hbind, hv]

/-- Witness of the amended C8: a request that asks for validation and whose
target has a parse error in its tree. -/
theorem createTrigger_validation_guard_witness :
    createTrigger (sampleEnv none true) sampleRequest =
      [Effect.writeErrorSaveResponse sampleProblems] := by
  have h := createTrigger_validation_guard (sampleEnv none true) sampleRequest sampleTrigger rfl
  exact (h.1 sampleProblems rfl rfl (by decide)).1

/-- Counterexample to C8 as stated: a create request that binds successfully and
whose target validation yields a tree with an error, but for which
`needValidate(request)` is false: `controller.CreateTrigger` is called and no
error-save response is written. -/
theorem createTrigger_unvalidated_counterexample :
    (sampleEnv none false).renderBind sampleRequest = (sampleTrigger, none) ∧
    (sampleEnv none false).validateTargets sampleRequest sampleTrigger = some sampleProblems ∧
    anyTreeHasError sampleProblems = true ∧
    createTrigger (sampleEnv none false) sampleRequest =
      [Effect.callCreateTrigger sampleTrigger [],
       Effect.renderSaveResponse ⟨lit "id", lit "trigger created", none⟩] := by
  refine ⟨rfl, rfl, by decide, rfl⟩

/-! ## The remote fetch client: responses -/

/-- C4: for every response that `makeRequest` receives and whose body is read
without error, `makeRequest` returns the raw body bytes with a nil error when
the status code is 200, and for every other status code it returns an error
whose text is `bad response status <code>: <body>`; so the error is nil exactly
when the status code is 200. -/
theorem makeRequest_status_classification (r : remote.Remote) (req : ClientRequest)
    (resp : remote.Response) (body : GoString)
    (hdo : r.client.Do req = remote.DoResult.received resp)
    (hread : resp.readAll = (body, none)) :
    (resp.StatusCode = 200 → remote.makeRequest r req = ⟨body, none, true⟩) ∧
    (resp.StatusCode ≠ 200 →
      remote.makeRequest r req =
        ⟨body, some (fmtErrorf
          (lit "bad response status " ++ FormatInt resp.StatusCode ++ lit ": " ++ body)), true⟩) ∧
    ((remote.makeRequest r req).err = none ↔ resp.StatusCode = 200) := by
  refine ⟨fun h => ?_, fun h => ?_, ?_⟩
  · simp [remote.makeRequest, hdo, hread, h]
  · simp [remote.makeRequest, hdo, hread, h]
  · by_cases h : resp.StatusCode = 200 <;> simp [remote.makeRequest, hdo, hread, h]

/-- Witness of C4: a 404 response with body `not found`. -/
theorem makeRequest_status_classification_witness :
    (remote.makeRequest
        (sampleRemote (lit "http://graphite/render") [] []
          (remote.DoResult.received ⟨404, (lit "not found", none)⟩))
        ⟨lit "GET", URL.zero, []⟩).err =
      some (fmtErrorf (lit "bad response status 404: not found")) := by
  have h := makeRequest_status_classification
    (sampleRemote (lit "http://graphite/render") [] []
      (remote.DoResult.received ⟨404, (lit "not found", none)⟩))
    ⟨lit "GET", URL.zero, []⟩ ⟨404, (lit "not found", none)⟩ (lit "not found") rfl rfl
  rw [h.2.1 (by decide)]
  decide

set_option maxRecDepth 100000 in
/-- C5, what the code does: on a transport failure `makeRequest` returns an
error whose text holds the timeout text, the field `req.URL.RawPath` and the
cause.  For the remote URL `http://graphite/render` the request that
`prepareRequest` builds has the path `/render` and an empty `RawPath`, so the
text reads `... TTL: 10s, PATH: , ERROR: <cause> `: timeout and cause are in the
message, the place of the path is empty, and the path `/render` occurs nowhere
in the message. -/
theorem makeRequest_unavailable_path_empty :
    (∀ (r : remote.Remote) (req : ClientRequest) (resp : Option remote.Response) (err : GoError),
      r.client.Do req = remote.DoResult.failed resp err →
      remote.makeRequest r req =
        ⟨[], some (fmtErrorf
          (lit "The remote server is not available or the response was reset by timeout. " ++
            lit "TTL: " ++ r.client.TimeoutString ++ lit ", PATH: " ++ req.URL.RawPath ++
            lit ", ERROR: " ++ err.text ++ lit " ")), resp.isSome⟩) ∧
    ∃ req : ClientRequest,
      remote.prepareRequest
        (sampleRemote (lit "http://graphite/render") [] []
          (remote.DoResult.failed none sampleTransportError)) 0 0 (lit "a") = some req ∧
      req.URL.Path = lit "/render" ∧
      req.URL.RawPath = [] ∧
      ∃ msg : GoString,
        remote.makeRequest
          (sampleRemote (lit "http://graphite/render") [] []
            (remote.DoResult.failed none sampleTransportError)) req =
          ⟨[], some (fmtErrorf msg), false⟩ ∧
        msg = lit ("The remote server is not available or the response was reset by timeout. " ++
          "TTL: 10s, PATH: , ERROR: Get \"http://sso.example/login\": " ++
          "context deadline exceeded (Client.Timeout exceeded while awaiting headers) ") ∧
        Index msg (lit "/render") = none := by
  refine ⟨fun r req resp err hdo => ?_, _, rfl, rfl, rfl, _, rfl, rfl, ?_⟩
  · simp [remote.makeRequest, hdo]
  · rfl

/-! ## The remote fetch client: request construction -/

/-- A new request has an empty header. -/
theorem NewRequest_header {method url : GoString} {req : ClientRequest}
    (h : NewRequest method url = some req) : req.Header = [] := by
  unfold NewRequest at h
  by_cases hv : (!validMethod (if method = [] then lit "GET" else method)) = true
  · rw [if_pos hv] at h
    exact absurd h (by simp)
  · rw [if_neg hv] at h
    cases hp : Parse url with
    | none =>
      rw [hp] at h
      exact absurd h (by simp)
    | some u =>
      rw [hp] at h
      simp only [Option.some.injEq] at h
      rw [← h]

/-- C3: for every successful `prepareRequest` call the returned request carries
the header `Authorization: Basic base64(user:password)`, built from the
configured user and password, when both are non-empty, and no header at all
otherwise; so it carries Basic authentication if and only if both the
configured user and the configured password are non-empty. -/
theorem prepareRequest_basic_auth (r : remote.Remote) (fromTime untilTime : Int)
    (target : GoString) (req : ClientRequest)
    (h : remote.prepareRequest r fromTime untilTime target = some req) :
    (r.config.User ≠ [] ∧ r.config.Password ≠ [] →
      req.Header = [(lit "Authorization",
        [lit "Basic " ++ base64Encode (r.config.User ++ [58] ++ r.config.Password)])]) ∧
    (¬ (r.config.User ≠ [] ∧ r.config.Password ≠ []) → req.Header = []) ∧
    (Values.lookupAll req.Header (lit "Authorization") ≠ [] ↔
      r.config.User ≠ [] ∧ r.config.Password ≠ []) := by
  unfold remote.prepareRequest at h
  split at h
  · exact absurd h (by simp)
  · rename_i base hbase
    have hh := NewRequest_header hbase
    by_cases hc : r.config.User ≠ [] ∧ r.config.Password ≠ []
    · rw [if_pos hc] at h
      simp only [Option.some.injEq] at h
      have hreq : req.Header = [(lit "Authorization",
          [lit "Basic " ++ base64Encode (r.config.User ++ [58] ++ r.config.Password)])] := by
        rw [← h]
        simp [SetBasicAuth, hh, Values.Set]
      refine ⟨fun _ => hreq, fun hn => absurd hc hn, ?_⟩
      rw [hreq]
      simp [Values.lookupAll, List.lookup, hc]
    · rw [if_neg hc] at h
      simp only [Option.some.injEq] at h
      have hreq : req.Header = [] := by
        rw [← h]
        exact hh
      refine ⟨fun hp => absurd hp hc, fun _ => hreq, ?_⟩
      rw [hreq]
      simp [Values.lookupAll, List.lookup, hc]

/-- Witness of C3: user `u` and password `p` give the header `Basic dTpw`. -/
theorem prepareRequest_basic_auth_witness :
    ∃ req : ClientRequest,
      remote.prepareRequest
        (sampleRemote (lit "http://graphite/render") (lit "u") (lit "p")
          (remote.DoResult.received ⟨200, ([], none)⟩)) 0 0 (lit "a") = some req ∧
      req.Header = [(lit "Authorization", [lit "Basic dTpw"])] := by
  refine ⟨_, rfl, ?_⟩
  have h := prepareRequest_basic_auth
    (sampleRemote (lit "http://graphite/render") (lit "u") (lit "p")
      (remote.DoResult.received ⟨200, ([], none)⟩)) 0 0 (lit "a") _ rfl
  rw [h.1 (by decide)]
  decide

/-- Every byte `formatDigits` puts in front of `acc` is a decimal digit. -/
theorem formatDigits_digit (fuel : Nat) : ∀ (n : Nat) (acc : GoString),
    (∀ c ∈ acc, 48 ≤ c ∧ c ≤ 57) → ∀ c ∈ formatDigits fuel n acc, 48 ≤ c ∧ c ≤ 57 := by
  induction fuel with
  | zero => intro n acc hacc c hc; exact hacc c hc
  | succ fuel ih =>
    intro n acc hacc c hc
    have hd : ∀ c ∈ (48 + n % 10) :: acc, 48 ≤ c ∧ c ≤ 57 := by
      intro d hmem
      rcases List.mem_cons.mp hmem with h | h
      · subst h
        have := Nat.mod_lt n (show 0 < 10 by decide)
        omega
      · exact hacc d h
    unfold formatDigits at hc
    split at hc
    · exact hd c hc
    · exact ih _ _ hd c hc

/-- The decimal text of an integer is made of digits and the minus sign. -/
theorem FormatInt_bytes (i : Int) : ∀ c ∈ FormatInt i, c = 45 ∨ (48 ≤ c ∧ c ≤ 57) := by
  intro c hc
  unfold FormatInt at hc
  split at hc
  · rcases List.mem_cons.mp hc with h | h
    · exact Or.inl h
    · exact Or.inr (formatDigits_digit _ _ [] (by simp) c h)
  · exact Or.inr (formatDigits_digit _ _ [] (by simp) c hc)

/-- Escaping leaves a string alone when none of its bytes is to be escaped. -/
theorem escape_eq_self (mode : encoding) (s : GoString)
    (h : ∀ c ∈ s, c ≠ 32 ∧ shouldEscape c mode = false) : escape s mode = s := by
  induction s with
  | nil => rfl
  | cons c cs ih =>
    have hc := h c (List.mem_cons_self c cs)
    have hcs : escape cs mode = cs := ih (fun d hd => h d (List.mem_cons_of_mem c hd))
    unfold escape at hcs ⊢
    rw [List.flatMap_cons, hcs]
    simp [hc.1, hc.2]

/-- Digits and the minus sign are not escaped in a query component. -/
theorem QueryEscape_FormatInt (i : Int) : QueryEscape (FormatInt i) = FormatInt i := by
  apply escape_eq_self
  intro c hc
  rcases FormatInt_bytes i c hc with h | h
  · subst h
    exact ⟨by decide, by decide⟩
  · refine ⟨by omega, ?_⟩
    unfold shouldEscape
    rw [if_pos (Or.inr (Or.inr h))]

/-- The hex digits `escape` writes are read back by `unhex`. -/
theorem unhex_upperhex : ∀ x, x < 16 → ishex (upperhex x) = true ∧ unhex (upperhex x) = x := by
  decide

/-- A byte that a query component keeps as it is, is none of `%`, `+`, `&`,
`=`, `;` and the blank. -/
theorem shouldEscape_query_false (c : Nat)
    (h : shouldEscape c encoding.encodeQueryComponent = false) :
    c ≠ 37 ∧ c ≠ 43 ∧ c ≠ 38 ∧ c ≠ 61 ∧ c ≠ 59 ∧ c ≠ 32 := by
  refine ⟨?_, ?_, ?_, ?_, ?_, ?_⟩ <;> (rintro rfl; revert h; decide)

/-- The first loop of `unescape` on an escape sequence, in a query component. -/
theorem unescapeValid_query_percent (hi lo : Nat) (rest : GoString) :
    unescapeValid encoding.encodeQueryComponent (37 :: hi :: lo :: rest) =
      (ishex hi && ishex lo && unescapeValid encoding.encodeQueryComponent rest) := by
  have e1 : (encoding.encodeQueryComponent == encoding.encodeHost) = false := by decide
  have e2 : (encoding.encodeQueryComponent == encoding.encodeZone) = false := by decide
  conv_lhs => unfold unescapeValid
  simp [e1, e2]

/-- The first loop of `unescape` on a byte other than `%`, in a query component. -/
theorem unescapeValid_query_plain (c : Nat) (rest : GoString) (hc : c ≠ 37) :
    unescapeValid encoding.encodeQueryComponent (c :: rest) =
      unescapeValid encoding.encodeQueryComponent rest := by
  have e1 : (encoding.encodeQueryComponent == encoding.encodeHost) = false := by decide
  have e2 : (encoding.encodeQueryComponent == encoding.encodeZone) = false := by decide
  conv_lhs => unfold unescapeValid
  rw [if_neg hc]
  split <;> simp [e1, e2]

/-- The second loop of `unescape` on an escape sequence. -/
theorem unescapeDecode_percent (mode : encoding) (hi lo : Nat) (rest : GoString) :
    unescapeDecode mode (37 :: hi :: lo :: rest) =
      (unhex hi * 16 + unhex lo) :: unescapeDecode mode rest := by
  conv_lhs => unfold unescapeDecode
  simp

/-- The second loop of `unescape` on a `+`, in a query component. -/
theorem unescapeDecode_query_plus (rest : GoString) :
    unescapeDecode encoding.encodeQueryComponent (43 :: rest) =
      32 :: unescapeDecode encoding.encodeQueryComponent rest := by
  conv_lhs => unfold unescapeDecode
  simp

/-- The second loop of `unescape` on a byte other than `%` and `+`. -/
theorem unescapeDecode_plain (mode : encoding) (c : Nat) (rest : GoString)
    (hc : c ≠ 37) (hp : c ≠ 43) :
    unescapeDecode mode (c :: rest) = c :: unescapeDecode mode rest := by
  conv_lhs => unfold unescapeDecode
  rw [if_neg hc, if_neg hp]

/-- Query-escaping a string of bytes gives a text that unescapes to the string
and holds none of the separators `&`, `=` and `;`. -/
theorem QueryEscape_spec (s : GoString) (h : ∀ c ∈ s, c < 256) :
    unescapeValid encoding.encodeQueryComponent (QueryEscape s) = true ∧
    unescapeDecode encoding.encodeQueryComponent (QueryEscape s) = s ∧
    ∀ b ∈ QueryEscape s, b ≠ 38 ∧ b ≠ 61 ∧ b ≠ 59 := by
  induction s with
  | nil => exact ⟨rfl, rfl, fun b hb => absurd hb (List.not_mem_nil _)⟩
  | cons c cs ih =>
    obtain ⟨ihv, ihd, ihb⟩ := ih (fun d hd => h d (List.mem_cons_of_mem c hd))
    have hc : c < 256 := h c (List.mem_cons_self c cs)
    have hcons : QueryEscape (c :: cs) =
        (if c = 32 ∧ encoding.encodeQueryComponent = encoding.encodeQueryComponent then [43]
         else if shouldEscape c encoding.encodeQueryComponent then
           [37, upperhex (c / 16), upperhex (c % 16)]
         else [c]) ++ QueryEscape cs := by
      unfold QueryEscape escape
      rw [List.flatMap_cons]
    rw [hcons]
    by_cases h32 : c = 32
    · subst h32
      simp only [true_and, if_true, List.singleton_append]
      refine ⟨?_, ?_, ?_⟩
      · rw [unescapeValid_query_plain _ _ (by decide)]
        exact ihv
      · rw [unescapeDecode_query_plus, ihd]
      · intro b hb
        rcases List.mem_cons.mp hb with hb1 | hb1
        · subst hb1
          decide
        · exact ihb b hb1
    · rw [if_neg (fun hh => h32 hh.1)]
      by_cases hesc : shouldEscape c encoding.encodeQueryComponent = true
      · rw [if_pos hesc]
        have hhi := unhex_upperhex (c / 16) (by omega)
        have hlo := unhex_upperhex (c % 16) (Nat.mod_lt c (by decide))
        simp only [List.cons_append, List.nil_append]
        refine ⟨?_, ?_, ?_⟩
        · rw [unescapeValid_query_percent, hhi.1, hlo.1, ihv]
          rfl
        · rw [unescapeDecode_percent, hhi.2, hlo.2, ihd]
          congr 1
          omega
        · intro b hb
          have hux : ∀ x, x < 16 → upperhex x ≠ 38 ∧ upperhex x ≠ 61 ∧ upperhex x ≠ 59 := by
            decide
          rcases List.mem_cons.mp hb with hb1 | hb1
          · subst hb1
            decide
          · rcases List.mem_cons.mp hb1 with hb2 | hb2
            · subst hb2
              exact hux _ (by omega)
            · rcases List.mem_cons.mp hb2 with hb3 | hb3
              · subst hb3
                exact hux _ (Nat.mod_lt c (by decide))
              · exact ihb b hb3
      · rw [if_neg hesc]
        have hplain := shouldEscape_query_false c (by simpa using hesc)
        simp only [List.singleton_append]
        refine ⟨?_, ?_, ?_⟩
        · rw [unescapeValid_query_plain _ _ hplain.1]
          exact ihv
        · rw [unescapeDecode_plain _ _ _ hplain.1 hplain.2.1, ihd]
        · intro b hb
          rcases List.mem_cons.mp hb with hb1 | hb1
          · subst hb1
            exact ⟨hplain.2.2.1, hplain.2.2.2.1, hplain.2.2.2.2.1⟩
          · exact ihb b hb1

/-- A query component unescapes to the string it was escaped from. -/
theorem QueryUnescape_QueryEscape (s : GoString) (h : ∀ c ∈ s, c < 256) :
    QueryUnescape (QueryEscape s) = some s := by
  unfold QueryUnescape unescape
  rw [if_pos (QueryEscape_spec s h).1, (QueryEscape_spec s h).2.1]

/-- A text without `%` and `+` passes `url.QueryUnescape` unchanged. -/
theorem QueryUnescape_plain (s : GoString) (h : ∀ c ∈ s, c ≠ 37 ∧ c ≠ 43) :
    QueryUnescape s = some s := by
  have hv : unescapeValid encoding.encodeQueryComponent s = true ∧
      unescapeDecode encoding.encodeQueryComponent s = s := by
    induction s with
    | nil => exact ⟨rfl, rfl⟩
    | cons c cs ih =>
      have hc := h c (List.mem_cons_self c cs)
      have ih2 := ih (fun d hd => h d (List.mem_cons_of_mem c hd))
      rw [unescapeValid_query_plain _ _ hc.1, unescapeDecode_plain _ _ _ hc.1 hc.2, ih2.2]
      exact ⟨ih2.1, rfl⟩
  unfold QueryUnescape unescape
  rw [if_pos hv.1, hv.2]

/-- The decimal text of an integer passes `url.QueryUnescape` unchanged. -/
theorem QueryUnescape_FormatInt (i : Int) : QueryUnescape (FormatInt i) = some (FormatInt i) := by
  apply QueryUnescape_plain
  intro c hc
  rcases FormatInt_bytes i c hc with h | h <;> omega

/-- Splitting at a separator that does not occur gives the one piece. -/
theorem splitByte_not_mem (sep : Nat) (x : GoString) (h : sep ∉ x) : splitByte sep x = [x] := by
  induction x with
  | nil => rfl
  | cons c cs ih =>
    have hc : c ≠ sep := fun hc => h (hc ▸ List.mem_cons_self _ _)
    rw [splitByte, if_neg hc, ih (fun hm => h (List.mem_cons_of_mem _ hm))]

/-- Splitting gives the text before the first separator as the first piece. -/
theorem splitByte_append (sep : Nat) (x y : GoString) (h : sep ∉ x) :
    splitByte sep (x ++ sep :: y) = x :: splitByte sep y := by
  induction x with
  | nil => simp [splitByte]
  | cons c cs ih =>
    have hc : c ≠ sep := fun hc => h (hc ▸ List.mem_cons_self _ _)
    rw [List.cons_append, splitByte, if_neg hc, ih (fun hm => h (List.mem_cons_of_mem _ hm))]

/-- Cutting `key=value` at `=` gives the key and the value. -/
theorem Cut_append (sep : Nat) (x y : GoString) (h : sep ∉ x) :
    (Cut (x ++ sep :: y) sep).1 = x ∧ (Cut (x ++ sep :: y) sep).2.1 = y := by
  induction x with
  | nil => simp [Cut]
  | cons c cs ih =>
    have hc : c ≠ sep := fun hc => h (hc ▸ List.mem_cons_self _ _)
    have ih2 := ih (fun hm => h (List.mem_cons_of_mem _ hm))
    unfold Cut at ih2 ⊢
    simp only [List.cons_append, List.takeWhile_cons, List.dropWhile_cons, bne_iff_ne, ne_eq, hc,
      not_false_eq_true, decide_True, if_true]
    simp only at ih2
    exact ⟨by rw [ih2.1], ih2.2⟩

/-- One step of `parseQuery` on a piece `key=value` whose key and value unescape. -/
theorem parseQueryStep_pair (m : Values) (k v key value : GoString)
    (hk59 : 59 ∉ k) (hv59 : 59 ∉ v) (hk61 : 61 ∉ k)
    (hkey : QueryUnescape k = some key) (hvalue : QueryUnescape v = some value) :
    parseQueryStep m (k ++ 61 :: v) = Values.Add m key value := by
  have hcut := Cut_append 61 k v hk61
  have hsemi : (k ++ 61 :: v).contains 59 = false := by
    rw [Bool.eq_false_iff]
    intro hc
    have hc : 59 ∈ k ++ 61 :: v := by simpa using hc
    rcases List.mem_append.mp hc with h1 | h1
    · exact hk59 h1
    · rcases List.mem_cons.mp h1 with h2 | h2
      · exact absurd h2 (by decide)
      · exact hv59 h2
  have hne : k ++ 61 :: v ≠ [] := by simp
  unfold parseQueryStep
  rw [hsemi, hcut.1, hcut.2, hkey, hvalue]
  simp [hne]

/-- Adding the four parameters to an empty `url.Values`. -/
theorem Values_Add_four (f t u : GoString) :
    Values.Add (Values.Add (Values.Add (Values.Add ([] : Values)
      (lit "format") (lit "json")) (lit "from") f) (lit "target") t) (lit "until") u =
    [(lit "format", [lit "json"]), (lit "from", [f]), (lit "target", [t]), (lit "until", [u])] := by
  have h1 : (lit "format" = lit "from") = False := by decide
  have h2 : strLess (lit "from") (lit "format") = false := by decide
  have h3 : (lit "format" = lit "target") = False := by decide
  have h4 : strLess (lit "target") (lit "format") = false := by decide
  have h5 : (lit "from" = lit "target") = False := by decide
  have h6 : strLess (lit "target") (lit "from") = false := by decide
  have h7 : (lit "format" = lit "until") = False := by decide
  have h8 : strLess (lit "until") (lit "format") = false := by decide
  have h9 : (lit "from" = lit "until") = False := by decide
  have h10 : strLess (lit "until") (lit "from") = false := by decide
  have h11 : (lit "target" = lit "until") = False := by decide
  have h12 : strLess (lit "until") (lit "target") = false := by decide
  simp only [Values.Add, h1, h2, h3, h4, h5, h6, h7, h8, h9, h10, h11, h12, if_false,
    Bool.false_eq_true]

/-- The encoding of the four parameters, piece by piece. -/
theorem Values_Encode_four (fromTime untilTime : Int) (target : GoString) :
    Values.Encode [(lit "format", [lit "json"]), (lit "from", [FormatInt fromTime]),
      (lit "target", [target]), (lit "until", [FormatInt untilTime])] =
    (lit "format" ++ 61 :: lit "json") ++ 38 ::
      ((lit "from" ++ 61 :: FormatInt fromTime) ++ 38 ::
        ((lit "target" ++ 61 :: QueryEscape target) ++ 38 ::
          (lit "until" ++ 61 :: FormatInt untilTime))) := by
  have e1 : QueryEscape (lit "format") = lit "format" := by decide
  have e2 : QueryEscape (lit "json") = lit "json" := by decide
  have e3 : QueryEscape (lit "from") = lit "from" := by decide
  have e4 : QueryEscape (lit "target") = lit "target" := by decide
  have e5 : QueryEscape (lit "until") = lit "until" := by decide
  simp only [Values.Encode, List.flatMap_cons, List.flatMap_nil, List.map_cons, List.map_nil,
    List.intercalate, List.append_nil, List.nil_append, List.singleton_append,
    List.cons_append, List.flatten_cons, List.flatten_nil, List.intersperse, e1, e2, e3, e4, e5,
    QueryEscape_FormatInt, List.append_assoc]

/-- Parsing the encoding of the four parameters gives the four parameters back. -/
theorem ParseQuery_four (fromTime untilTime : Int) (target : GoString)
    (htarget : ∀ c ∈ target, c < 256) :
    ParseQuery ((lit "format" ++ 61 :: lit "json") ++ 38 ::
      ((lit "from" ++ 61 :: FormatInt fromTime) ++ 38 ::
        ((lit "target" ++ 61 :: QueryEscape target) ++ 38 ::
          (lit "until" ++ 61 :: FormatInt untilTime)))) =
    [(lit "format", [lit "json"]), (lit "from", [FormatInt fromTime]),
      (lit "target", [target]), (lit "until", [FormatInt untilTime])] := by
  have hint : ∀ (i : Int) (b : Nat), b ≠ 45 → ¬ (48 ≤ b ∧ b ≤ 57) → b ∉ FormatInt i := by
    intro i b h1 h2 hm
    rcases FormatInt_bytes i b hm with h | h
    · exact h1 h
    · exact h2 h
  have hesc := (QueryEscape_spec target htarget).2.2
  have hpiece : ∀ (b : Nat) (k v : GoString), b ∉ k → b ≠ 61 → b ∉ v → b ∉ k ++ 61 :: v := by
    intro b k v hk hb hv hm
    rcases List.mem_append.mp hm with h | h
    · exact hk h
    · rcases List.mem_cons.mp h with h2 | h2
      · exact hb h2
      · exact hv h2
  have s1 : 38 ∉ lit "format" ++ 61 :: lit "json" := by decide
  have s2 : 38 ∉ lit "from" ++ 61 :: FormatInt fromTime :=
    hpiece 38 _ _ (by decide) (by decide) (hint _ 38 (by decide) (by omega))
  have s3 : 38 ∉ lit "target" ++ 61 :: QueryEscape target :=
    hpiece 38 _ _ (by decide) (by decide) (fun hm => (hesc 38 hm).1 rfl)
  have s4 : 38 ∉ lit "until" ++ 61 :: FormatInt untilTime :=
    hpiece 38 _ _ (by decide) (by decide) (hint _ 38 (by decide) (by omega))
  unfold ParseQuery
  rw [splitByte_append 38 _ _ s1, splitByte_append 38 _ _ s2, splitByte_append 38 _ _ s3,
    splitByte_not_mem 38 _ s4]
  simp only [List.foldl_cons, List.foldl_nil]
  rw [parseQueryStep_pair [] (lit "format") (lit "json") (lit "format") (lit "json")
      (by decide) (by decide) (by decide) (by decide) (by decide),
    parseQueryStep_pair _ (lit "from") (FormatInt fromTime) (lit "from") (FormatInt fromTime)
      (by decide) (hint _ 59 (by decide) (by omega)) (by decide) (by decide)
      (QueryUnescape_FormatInt _),
    parseQueryStep_pair _ (lit "target") (QueryEscape target) (lit "target") target
      (by decide) (fun hm => (hesc 59 hm).2.2 rfl) (by decide) (by decide)
      (QueryUnescape_QueryEscape target htarget),
    parseQueryStep_pair _ (lit "until") (FormatInt untilTime) (lit "until") (FormatInt untilTime)
      (by decide) (hint _ 59 (by decide) (by omega)) (by decide) (by decide)
      (QueryUnescape_FormatInt _)]
  exact Values_Add_four _ _ _

/-- C2, as the code has it: for every from, until and target and every
configured remote URL for which `prepareRequest` succeeds, the query string of
the returned request is the encoding of the parameters of the configured URL's
own query string with `format=json`, `from=<decimal from>`, `target=<target>`
and `until=<decimal until>` added to them; when the configured URL carries no
query parameter of its own, the query string reads
`format=json&from=<from>&target=<escaped target>&until=<until>`, and its
parameters are exactly these four, each once. -/
theorem prepareRequest_query (r : remote.Remote) (fromTime untilTime : Int)
    (target : GoString) (req : ClientRequest)
    (h : remote.prepareRequest r fromTime untilTime target = some req) :
    ∃ base : URL, Parse r.config.URL = some base ∧
      req.URL.RawQuery =
        Values.Encode
          (Values.Add (Values.Add (Values.Add (Values.Add base.Query
            (lit "format") (lit "json")) (lit "from") (FormatInt fromTime))
            (lit "target") target) (lit "until") (FormatInt untilTime)) ∧
      (base.Query = [] →
        req.URL.RawQuery =
          lit "format=json&from=" ++ FormatInt fromTime ++ lit "&target=" ++
            QueryEscape target ++ lit "&until=" ++ FormatInt untilTime ∧
        ((∀ c ∈ target, c < 256) →
          req.URL.Query =
            [(lit "format", [lit "json"]), (lit "from", [FormatInt fromTime]),
              (lit "target", [target]), (lit "until", [FormatInt untilTime])])) := by
  unfold remote.prepareRequest at h
  split at h
  · exact absurd h (by simp)
  · rename_i req0 hreq0
    unfold NewRequest at hreq0
    rw [if_neg (by decide)] at hreq0
    split at hreq0
    · exact absurd hreq0 (by simp)
    · rename_i base hbase
      simp only [Option.some.injEq] at hreq0
      have hq : req0.URL.Query = base.Query := by
        rw [← hreq0]
        rfl
      have hraw : req.URL.RawQuery =
          Values.Encode
            (Values.Add (Values.Add (Values.Add (Values.Add base.Query
              (lit "format") (lit "json")) (lit "from") (FormatInt fromTime))
              (lit "target") target) (lit "until") (FormatInt untilTime)) := by
        rw [← hq]
        split at h <;> simp only [Option.some.injEq] at h <;> subst h <;> rfl
      refine ⟨base, hbase, hraw, fun hempty => ?_⟩
      rw [hempty, Values_Add_four, Values_Encode_four] at hraw
      refine ⟨?_, fun htarget => ?_⟩
      · rw [hraw]
        have l1 : lit "format=json&from=" =
            lit "format" ++ [61] ++ lit "json" ++ [38] ++ lit "from" ++ [61] := by decide
        have l2 : lit "&target=" = [38] ++ lit "target" ++ [61] := by decide
        have l3 : lit "&until=" = [38] ++ lit "until" ++ [61] := by decide
        simp only [l1, l2, l3, List.append_assoc, List.singleton_append, List.cons_append,
          List.nil_append]
      · unfold URL.Query
        rw [hraw]
        exact ParseQuery_four fromTime untilTime target htarget

/-- Witness of the amended C2: a remote URL without a query string. -/
theorem prepareRequest_query_witness :
    ∃ req : ClientRequest,
      remote.prepareRequest
        (sampleRemote (lit "http://graphite/render") [] []
          (remote.DoResult.received ⟨200, ([], none)⟩)) 1700000000 1700003600
          (lit "sumSeries(a.*, b c)") = some req ∧
      req.URL.RawQuery =
        lit "format=json&from=1700000000&target=sumSeries%28a.%2A%2C+b+c%29&until=1700003600" := by
  refine ⟨_, rfl, ?_⟩
  obtain ⟨base, hbase, -, hq⟩ := prepareRequest_query
    (sampleRemote (lit "http://graphite/render") [] []
      (remote.DoResult.received ⟨200, ([], none)⟩)) 1700000000 1700003600
      (lit "sumSeries(a.*, b c)") _ rfl
  have hb : base = ⟨lit "http", [], none, lit "graphite", lit "/render", [], false, false,
      [], [], []⟩ := by
    have : Parse (lit "http://graphite/render") = some base := hbase
    have h2 : Parse (lit "http://graphite/render") = some ⟨lit "http", [], none, lit "graphite",
        lit "/render", [], false, false, [], [], []⟩ := by decide
    rw [h2] at this
    exact (Option.some.inj this).symm
  rw [(hq (by rw [hb]; decide)).1]
  decide

/-- Counterexample to C2 as stated: for the remote URL
`http://graphite/render?format=xml&x=1`, `prepareRequest` succeeds and the query
string of the request holds six parameters: `format` twice (`xml`, then `json`)
and the parameter `x=1` next to `from`, `target` and `until`. -/
theorem prepareRequest_query_counterexample :
    ∃ req : ClientRequest,
      remote.prepareRequest
        (sampleRemote (lit "http://graphite/render?format=xml&x=1") [] []
          (remote.DoResult.received ⟨200, ([], none)⟩)) 0 0 (lit "a") = some req ∧
      req.URL.RawQuery = lit "format=xml&format=json&from=0&target=a&until=0&x=1" ∧
      req.URL.Query =
        [(lit "format", [lit "xml", lit "json"]), (lit "from", [lit "0"]),
         (lit "target", [lit "a"]), (lit "until", [lit "0"]), (lit "x", [lit "1"])] ∧
      req.URL.RawQuery ≠ lit "format=json&from=0&target=a&until=0" := by
  exact ⟨_, rfl, rfl, by decide, by decide⟩

/-! ## Tag filters -/

/-- Reading the digits of `formatDigits fuel n acc` back gives what reading
`acc` from the value `n` gives. -/
theorem formatDigits_decode (fuel : Nat) : ∀ (n : Nat) (acc : GoString), n < fuel →
    List.foldl (fun a d => 10 * a + (d - 48)) 0 (formatDigits fuel n acc) =
      List.foldl (fun a d => 10 * a + (d - 48)) n acc := by
  induction fuel with
  | zero => intro n acc h; omega
  | succ fuel ih =>
    intro n acc _
    unfold formatDigits
    split
    · rename_i h0
      have hn : n % 10 = n := Nat.mod_eq_of_lt (by omega)
      simp [hn]
    · rename_i h0
      rw [ih (n / 10) _ (by omega)]
      have hn : 10 * (n / 10) + n % 10 = n := by omega
      simp [hn]

/-- Different numbers have different decimal texts. -/
theorem FormatUint_injective : Function.Injective FormatUint := by
  intro a b h
  have ha := formatDigits_decode (a + 1) a [] (Nat.lt_succ_self a)
  have hb := formatDigits_decode (b + 1) b [] (Nat.lt_succ_self b)
  unfold FormatUint at h
  rw [h, hb] at ha
  simpa using ha.symm

/-- Different indices have different form keys `tags[i]`. -/
theorem tagKey_injective : Function.Injective tagKey := by
  intro a b h
  unfold tagKey FormatInt at h
  have ha : ¬ ((a : Int) < 0) := by omega
  have hb : ¬ ((b : Int) < 0) := by omega
  rw [if_neg ha, if_neg hb, List.append_assoc, List.append_assoc] at h
  have h1 := List.append_cancel_left h
  have h2 := List.append_cancel_right h1
  simpa using FormatUint_injective h2

/-- A key with a non-empty form value is a key of the form. -/
theorem FormValue_ne_nil_mem (request : Request) (key : GoString)
    (h : FormValue request key ≠ []) : key ∈ request.form.map Prod.fst := by
  by_contra hmem
  apply h
  have hnone : request.form.lookup key = none := by
    rw [List.lookup_eq_none_iff]
    intro p hp
    have hne : key ≠ p.1 := fun hk => hmem (List.mem_map.mpr ⟨p, hp, hk.symm⟩)
    simpa using hne
  simp [FormValue, Values.Get, Values.lookupAll, hnone]

/-- Some index has no (or an empty) form value: the form is finite. -/
theorem exists_missing_tag (request : Request) :
    ∃ k, FormValue request (tagKey k) = [] := by
  by_contra hall
  have hall2 : ∀ k, FormValue request (tagKey k) ≠ [] := fun k hk => hall ⟨k, hk⟩
  have hnodup : ((List.range (request.form.length + 1)).map tagKey).Nodup :=
    List.Nodup.map tagKey_injective (List.nodup_range _)
  have hsub : (List.range (request.form.length + 1)).map tagKey ⊆ request.form.map Prod.fst := by
    intro key hkey
    obtain ⟨i, -, rfl⟩ := List.mem_map.mp hkey
    exact FormValue_ne_nil_mem request _ (hall2 i)
  have hlen := (List.subperm_of_subset hnodup hsub).length_le
  simp at hlen

/-- The loop of `getRequestTags`, started at `i` below the first gap `k` with
fuel for the iterations up to `k`, appends the values at `i`, ..., `k - 1`. -/
theorem getRequestTagsLoop_spec (request : Request) (k : Nat)
    (hk : FormValue request (tagKey k) = [])
    (hbelow : ∀ i < k, FormValue request (tagKey i) ≠ []) :
    ∀ (fuel i : Nat) (acc : List GoString), i ≤ k → k - i < fuel →
      getRequestTagsLoop request fuel i acc =
        some (acc ++ (List.range' i (k - i)).map (fun j => FormValue request (tagKey j))) := by
  intro fuel
  induction fuel with
  | zero => intro i acc _ h; omega
  | succ fuel ih =>
    intro i acc hik hfuel
    unfold getRequestTagsLoop
    by_cases hi : i = k
    · subst hi
      simp [hk]
    · have hlt : i < k := by omega
      rw [if_neg (hbelow i hlt), ih (i + 1) _ (by omega) (by omega)]
      have hsub : k - i = (k - (i + 1)) + 1 := by omega
      rw [hsub, List.range'_succ]
      simp

/-- C6: for every request form there is a first index `k` whose form value
`tags[k]` is missing or empty, and `getRequestTags` (given fuel for `k + 1`
iterations) returns the values of `tags[0]`, ..., `tags[k-1]` in index order;
nothing at or after the first gap is collected. -/
theorem getRequestTags_stops_at_first_gap (request : Request) :
    ∃ k : Nat,
      FormValue request (tagKey k) = [] ∧
      (∀ i < k, FormValue request (tagKey i) ≠ []) ∧
      ∀ fuel, k < fuel →
        getRequestTags fuel request =
          some ((List.range k).map (fun i => FormValue request (tagKey i))) := by
  classical
  have hex := exists_missing_tag request
  refine ⟨Nat.find hex, Nat.find_spec hex, fun i hi => Nat.find_min hex hi, fun fuel hfuel => ?_⟩
  have h := getRequestTagsLoop_spec request (Nat.find hex) (Nat.find_spec hex)
    (fun i hi => Nat.find_min hex hi) fuel 0 [] (Nat.zero_le _) (by omega)
  unfold getRequestTags
  rw [h, List.range_eq_range']
  simp

/-- The example of C6: `tags[0]=a`, `tags[1]=b`, `tags[3]=d` yields `[a, b]`. -/
theorem getRequestTags_gap_example :
    getRequestTags 3
      (requestWithForm [(lit "tags[0]", [lit "a"]), (lit "tags[1]", [lit "b"]),
        (lit "tags[3]", [lit "d"])]) = some [lit "a", lit "b"] := by
  decide

/-! ## Search text normalization -/

/-- On a string of ASCII bytes `strings.ToLower` lowers byte by byte. -/
theorem ToLower_ascii (unicodeLower : GoString → GoString) (s : GoString)
    (h : ∀ c ∈ s, c < 128) : ToLower unicodeLower s = s.map lowerByte := by
  unfold ToLower
  have hall : s.all (fun c => decide (c < 128)) = true := by
    simpa [List.all_eq_true] using h
  rw [if_pos hall]
  split
  · rfl
  · rename_i hany
    have hno : ∀ c ∈ s, lowerByte c = c := by
      intro c hc
      unfold lowerByte
      split
      · rename_i hup
        exact absurd (List.any_eq_true.mpr ⟨c, hc, by simpa using hup⟩) hany
      · rfl
    calc s = s.map id := (List.map_id s).symm
      _ = s.map lowerByte := List.map_congr_left (fun c hc => (hno c hc).symm)

/-- A string without `%` passes `url.PathUnescape` unchanged. -/
theorem PathUnescape_no_percent (s : GoString) (h : 37 ∉ s) : PathUnescape s = some s := by
  have hv : unescapeValid encoding.encodePathSegment s = true ∧
      unescapeDecode encoding.encodePathSegment s = s := by
    induction s with
    | nil => exact ⟨rfl, rfl⟩
    | cons c cs ih =>
      have hc : c ≠ 37 := fun hc => h (hc ▸ List.mem_cons_self _ _)
      have ih2 := ih (fun hm => h (List.mem_cons_of_mem _ hm))
      unfold unescapeValid unescapeDecode
      by_cases h43 : c = 43
      · simp [hc, h43, ih2.1, ih2.2]
      · simp [hc, h43, ih2.1, ih2.2]
  unfold PathUnescape unescape
  rw [if_pos hv.1, hv.2]

/-- Decoding a well-formed escaped string does not make it longer, and makes it
shorter when it holds a `%`. -/
theorem unescapeDecode_length (mode : encoding) (n : Nat) : ∀ s : GoString, s.length ≤ n →
    unescapeValid mode s = true →
    (unescapeDecode mode s).length ≤ s.length ∧
      (37 ∈ s → (unescapeDecode mode s).length < s.length) := by
  induction n with
  | zero =>
    intro s hlen _
    have hs : s = [] := List.length_eq_zero.mp (Nat.le_zero.mp hlen)
    subst hs
    exact ⟨Nat.le_refl _, fun hm => absurd hm (List.not_mem_nil _)⟩
  | succ n ih =>
    intro s hlen hvalid
    match s, hlen, hvalid with
    | [], _, _ => exact ⟨Nat.le_refl _, fun hm => absurd hm (List.not_mem_nil _)⟩
    | c :: rest, hlen, hvalid =>
      by_cases hc : c = 37
      · subst hc
        match rest, hlen, hvalid with
        | [], _, hvalid => simp [unescapeValid] at hvalid
        | [_], _, hvalid => simp [unescapeValid] at hvalid
        | hi :: lo :: rest2, hlen, hvalid =>
          have hv2 : unescapeValid mode rest2 = true := by
            unfold unescapeValid at hvalid
            simp only [if_true, Bool.and_eq_true] at hvalid
            exact hvalid.2
          have hl2 : rest2.length ≤ n := by
            simp only [List.length_cons] at hlen
            omega
          have h2 := (ih rest2 hl2 hv2).1
          have hd : unescapeDecode mode (37 :: hi :: lo :: rest2) =
              (unhex hi * 16 + unhex lo) :: unescapeDecode mode rest2 := by
            simp [unescapeDecode]
          rw [hd]
          simp only [List.length_cons]
          exact ⟨by omega, fun _ => by omega⟩
      · have hv2 : unescapeValid mode rest = true := by
          unfold unescapeValid at hvalid
          rw [if_neg hc] at hvalid
          split at hvalid
          · exact hvalid
          · simp only [Bool.and_eq_true] at hvalid
            exact hvalid.2
        have hl2 : rest.length ≤ n := by
          simp only [List.length_cons] at hlen
          omega
        have h2 := ih rest hl2 hv2
        have hd : (unescapeDecode mode (c :: rest)).length =
            (unescapeDecode mode rest).length + 1 := by
          conv_lhs => unfold unescapeDecode
          rw [if_neg hc]
          split <;> simp
        rw [hd]
        simp only [List.length_cons]
        refine ⟨by omega, fun hm => ?_⟩
        have hm2 : 37 ∈ rest := by
          rcases List.mem_cons.mp hm with h | h
          · exact absurd h.symm hc
          · exact h
        have := h2.2 hm2
        omega

/-- A list that a map leaves alone is fixed element by element. -/
theorem map_eq_self_pointwise (f : Nat → Nat) : ∀ l : List Nat, l.map f = l → ∀ c ∈ l, f c = c := by
  intro l
  induction l with
  | nil => intro _ c hc; exact absurd hc (List.not_mem_nil _)
  | cons a as ih =>
    intro h c hc
    simp only [List.map_cons, List.cons.injEq] at h
    rcases List.mem_cons.mp hc with hca | hca
    · rw [hca]; exact h.1
    · exact ih h.2 c hca

/-- Lowering a byte gives `%` only from `%`. -/
theorem lowerByte_eq_percent (c : Nat) (h : lowerByte c = 37) : c = 37 := by
  unfold lowerByte at h
  split at h <;> omega

/-- The fixed points of the normalization among ASCII strings: the strings with
no `%` and no upper-case ASCII letter. -/
theorem normalizeSearchText_fixed_iff (unicodeLower : GoString → GoString) (n : GoString)
    (hn : ∀ c ∈ n, c < 128) :
    normalizeSearchText unicodeLower n = n ↔
      37 ∉ n ∧ ∀ c ∈ n, ¬ (65 ≤ c ∧ c ≤ 90) := by
  have hmem : 37 ∈ n.map lowerByte ↔ 37 ∈ n := by
    constructor
    · intro h
      obtain ⟨c, hc, hc37⟩ := List.mem_map.mp h
      rw [lowerByte_eq_percent c hc37] at hc
      exact hc
    · intro h
      exact List.mem_map.mpr ⟨37, h, by decide⟩
  unfold normalizeSearchText
  rw [ToLower_ascii unicodeLower n hn]
  constructor
  · intro h
    have h37 : 37 ∉ n := by
      intro hm
      have hm2 := hmem.mpr hm
      cases hval : unescapeValid encoding.encodePathSegment (n.map lowerByte) with
      | false =>
        simp only [PathUnescape, unescape, hval, Bool.false_eq_true, if_false,
          Option.getD_none] at h
        rw [← h] at hm
        exact absurd hm (List.not_mem_nil _)
      | true =>
        simp only [PathUnescape, unescape, hval, if_true, Option.getD_some] at h
        have hlen := (unescapeDecode_length encoding.encodePathSegment _ (n.map lowerByte)
          (Nat.le_refl _) hval).2 hm2
        rw [h, List.length_map] at hlen
        exact absurd hlen (Nat.lt_irrefl _)
    have h37m : 37 ∉ n.map lowerByte := fun hm => h37 (hmem.mp hm)
    rw [PathUnescape_no_percent _ h37m, Option.getD_some] at h
    refine ⟨h37, fun c hc hup => ?_⟩
    have hfix := map_eq_self_pointwise lowerByte n h c hc
    unfold lowerByte at hfix
    rw [if_pos hup] at hfix
    omega
  · intro h
    have hmap : n.map lowerByte = n := by
      calc n.map lowerByte = n.map id :=
            List.map_congr_left (fun c hc => by
              unfold lowerByte
              rw [if_neg (h.2 c hc)]
              rfl)
        _ = n := List.map_id n
    rw [hmap, PathUnescape_no_percent n h.1, Option.getD_some]

/-- C7, as the code has it: `getSearchRequestString` applies the normalization
(lower-case, then percent-decode) to the form value `text`; for a
printable-ASCII input `s` without `%` normalizing the normalized form gives the
normalized form again; and in general, when the normalized form of `s` is an
ASCII string, normalizing it gives it back exactly when it holds no `%` and no
upper-case ASCII letter. -/
theorem normalizeSearchText_idempotent_iff (unicodeLower : GoString → GoString) (s : GoString)
    (hs : printableASCII s) :
    getSearchRequestString unicodeLower (requestWithForm [(lit "text", [s])]) =
        normalizeSearchText unicodeLower s ∧
    (37 ∉ s →
      normalizeSearchText unicodeLower (normalizeSearchText unicodeLower s) =
        normalizeSearchText unicodeLower s) ∧
    ((∀ c ∈ normalizeSearchText unicodeLower s, c < 128) →
      (normalizeSearchText unicodeLower (normalizeSearchText unicodeLower s) =
          normalizeSearchText unicodeLower s ↔
        37 ∉ normalizeSearchText unicodeLower s ∧
          ∀ c ∈ normalizeSearchText unicodeLower s, ¬ (65 ≤ c ∧ c ≤ 90))) := by
  refine ⟨?_, fun h37 => ?_, fun hascii => normalizeSearchText_fixed_iff unicodeLower _ hascii⟩
  · simp [getSearchRequestString, normalizeSearchText, FormValue, Values.Get, Values.lookupAll,
      requestWithForm, List.lookup]
  · have hs128 : ∀ c ∈ s, c < 128 := fun c hc => by
      have := (hs c hc).2
      omega
    have h37m : 37 ∉ s.map lowerByte := by
      intro hm
      obtain ⟨c, hc, hc37⟩ := List.mem_map.mp hm
      rw [lowerByte_eq_percent c hc37] at hc
      exact h37 hc
    have hnorm : normalizeSearchText unicodeLower s = s.map lowerByte := by
      unfold normalizeSearchText
      rw [ToLower_ascii unicodeLower s hs128, PathUnescape_no_percent _ h37m, Option.getD_some]
    rw [hnorm]
    apply (normalizeSearchText_fixed_iff unicodeLower _ ?_).mpr
    · refine ⟨h37m, fun c hc hup => ?_⟩
      obtain ⟨d, hd, hdc⟩ := List.mem_map.mp hc
      unfold lowerByte at hdc
      split at hdc <;> omega
    · intro c hc
      obtain ⟨d, hd, hdc⟩ := List.mem_map.mp hc
      have := (hs d hd).2
      unfold lowerByte at hdc
      split at hdc <;> omega

/-- Witness of the amended C7: the input `Hello World` is normalized to
`hello world`, which is normalized to itself. -/
theorem normalizeSearchText_idempotent_iff_witness :
    normalizeSearchText (fun t => t) (normalizeSearchText (fun t => t) (lit "Hello World")) =
      normalizeSearchText (fun t => t) (lit "Hello World") :=
  (normalizeSearchText_idempotent_iff (fun t => t) (lit "Hello World") (by decide)).2.1
    (by decide)

/-- Counterexample to C7 as stated: the printable-ASCII input `%41` is
normalized to `A`, and `A` is normalized to `a`, whatever the lowering of
non-ASCII text does. -/
theorem normalizeSearchText_not_idempotent_counterexample :
    printableASCII (lit "%41") ∧
    ∀ unicodeLower : GoString → GoString,
      normalizeSearchText unicodeLower (lit "%41") = lit "A" ∧
      normalizeSearchText unicodeLower (normalizeSearchText unicodeLower (lit "%41")) = lit "a" ∧
      normalizeSearchText unicodeLower (normalizeSearchText unicodeLower (lit "%41")) ≠
        normalizeSearchText unicodeLower (lit "%41") := by
  refine ⟨by decide, fun unicodeLower => ?_⟩
  have h1 : normalizeSearchText unicodeLower (lit "%41") = lit "A" := rfl
  have h2 : normalizeSearchText unicodeLower (lit "A") = lit "a" := rfl
  refine ⟨h1, by rw [h1, h2], ?_⟩
  rw [h1, h2]
  decide

end Moira
